import Mathlib

/-!
Verification of the secdef feed parser (`parser_FIX.py`).

The embedding models `parse_secdef_file` and `print_solution3` from the
source.  A feed is a list of records, each record the list of SOH-separated
tokens of one line.  The three module-level dictionaries (`d167`, `d462`,
`dNameExpiration`) together with the function-local variables that survive
from one line to the next (`names`, `expiration`, `product_complex`) form
the parse state.  Runtime faults of the Python code are modelled explicitly:
`KeyError` (unseeded dictionary key, caught at feed level, returns `False`),
`IndexError` (a token without `=` where `split('=')[1]` is taken, uncaught)
and `NameError` (reading a local variable that was never assigned, uncaught).
-/

namespace ParserFIX

/-- Python's `s.split(sep)` on a list of characters (single-character
separator): split at every occurrence, keeping empty pieces. -/
def splitChAux (sep : Char) : List Char → List Char → List (List Char)
  | [], acc => [acc.reverse]
  | c :: cs, acc =>
    if c = sep then acc.reverse :: splitChAux sep cs []
    else splitChAux sep cs (c :: acc)

/-- Python's `s.split(sep)` for a single-character separator. -/
def pySplit (sep : Char) (s : String) : List String :=
  (splitChAux sep s.toList []).map String.mk

/-- Delimiter Start Of Header (SOH), `SOH = '\x01'` in the source. -/
def SOH : Char := '\x01'

/-- `SECURITY_TYPE_TAG = '167'`. -/
def SECURITY_TYPE_TAG : String := "167"

/-- `FUTURES = 'FUT'`. -/
def FUTURES : String := "FUT"

/-- `UNDERLYING_PRODUCT_TAG = '462'`. -/
def UNDERLYING_PRODUCT_TAG : String := "462"

/-- `ASSET_GE = '6937=GE'`. -/
def ASSET_GE : String := "6937=GE"

/-- `NOLEGS_TAG = '555'`. -/
def NOLEGS_TAG : String := "555"

/-- `NAMES_TAG = '55'`. -/
def NAMES_TAG : String := "55"

/-- `EXPIRATION_TAG = '200'`. -/
def EXPIRATION_TAG : String := "200"

/-- `data.split('=')[0]`: the part of a token before the first `=`
(the whole token when there is no `=`). -/
def tagOf (data : String) : String :=
  (pySplit '=' data).headD ""

/-- `data.split('=')[1]`: the part of a token between the first and the
second `=`; `none` models the `IndexError` raised when there is no `=`. -/
def valOf (data : String) : Option String :=
  (pySplit '=' data).get? 1

/-- `line.split(SOH)`: the Record Tokenizer. -/
def tokenize (line : String) : List String :=
  pySplit SOH line

/-- The runtime faults the parse loop can raise. -/
inductive PErr where
  | keyError : PErr
  | indexError : PErr
  | nameError : PErr
deriving DecidableEq, Repr

/-- The data mutated by `parse_secdef_file`: the three module-level
dictionaries and the function-local variables that are *not* reset between
lines (`names`, `expiration`, `product_complex`); `none` means the local
variable has not been assigned yet (reading it raises `NameError`), and a
`none` result of a dictionary models an absent key (`KeyError` on `+= 1`). -/
structure ParseState where
  d167 : String → Option Nat
  d462 : String → Option Nat
  dNameExpiration : List (String × String)
  names : Option String
  expiration : Option String
  product_complex : Option String

/-- The four per-record booleans, reinitialised to `False` for every line. -/
structure Flags where
  futures : Bool
  assetGE : Bool
  nolegs : Bool
  underlying_product : Bool
deriving DecidableEq, Repr

/-- `futures = assetGE = nolegs = underlying_product = False` at line start. -/
def initFlags : Flags := ⟨false, false, false, false⟩

/-- `d167` as pre-seeded at module load: the five known security types at 0. -/
def d167_init : String → Option Nat := fun k =>
  if ["FUT", "OOF", "MLEG", "IRS", "FXSPOT"].contains k then some 0 else none

/-- `d462` as pre-seeded at module load: the eight known product complexes. -/
def d462_init : String → Option Nat := fun k =>
  if ["2", "4", "5", "12", "14", "15", "16", "17"].contains k then some 0 else none

/-- The state at the start of `parse_secdef_file`. -/
def initState : ParseState :=
  { d167 := d167_init
    d462 := d462_init
    dNameExpiration := []
    names := none
    expiration := none
    product_complex := none }

/-- Python dict assignment `m[k] = v` on an insertion-ordered dictionary:
overwrite in place when the key exists, else append. -/
def dictInsert (m : List (String × String)) (k v : String) : List (String × String) :=
  if m.any (fun p => p.1 == k) then m.map (fun p => if p.1 == k then (k, v) else p)
  else m ++ [(k, v)]

/-- One iteration of `for data in field` (source lines 126-141): the
`elif` chain over one token.  Errors: a value-extracting branch raises
`IndexError` on a token without `=`; the `d167[...] += 1` raises `KeyError`
on an unseeded security type. -/
def stepToken (st : ParseState) (fl : Flags) (data : String) :
    Except PErr (ParseState × Flags) :=
  if tagOf data = SECURITY_TYPE_TAG then
    match valOf data with
    | none => .error .indexError
    | some v =>
      match st.d167 v with
      | none => .error .keyError
      | some n =>
        if v = FUTURES then
          .ok ({ st with d167 := fun k => if k = v then some (n + 1) else st.d167 k },
            { fl with futures := true })
        else
          .ok ({ st with d167 := fun k => if k = v then some (n + 1) else st.d167 k }, fl)
  else if tagOf data = UNDERLYING_PRODUCT_TAG then
    match valOf data with
    | none => .error .indexError
    | some v =>
      .ok ({ st with product_complex := some v }, { fl with underlying_product := true })
  else if data = ASSET_GE ∧ fl.assetGE = false then
    .ok (st, { fl with assetGE := true })
  else if tagOf data = NOLEGS_TAG then
    .ok (st, { fl with nolegs := true })
  else if tagOf data = NAMES_TAG then
    match valOf data with
    | none => .error .indexError
    | some v => .ok ({ st with names := some v }, fl)
  else if tagOf data = EXPIRATION_TAG then
    match valOf data with
    | none => .error .indexError
    | some v => .ok ({ st with expiration := some v }, fl)
  else .ok (st, fl)

/-- The full field scan of one record (the inner `for` loop); on a fault the
scan stops and the state reached so far is kept (the dictionaries are global
in the source, so partial mutations survive the exception). -/
def scanFields : ParseState → Flags → List String → ParseState × Flags × Option PErr
  | st, fl, [] => (st, fl, none)
  | st, fl, data :: rest =>
    match stepToken st fl data with
    | .error e => (st, fl, some e)
    | .ok (st', fl') => scanFields st' fl' rest

/-- `d462[product_complex] += 1` (source line 145): reading the local
`product_complex` (`NameError` if never assigned) then the dictionary
update (`KeyError` if the key is unseeded). -/
def bump462 (st : ParseState) : ParseState × Option PErr :=
  match st.product_complex with
  | none => (st, some .nameError)
  | some pc =>
    match st.d462 pc with
    | none => (st, some .keyError)
    | some n =>
      ({ st with d462 := fun k => if k = pc then some (n + 1) else st.d462 k }, none)

/-- `dNameExpiration[names] = expiration` (source line 147): `NameError`
when either local was never assigned. -/
def updName (st : ParseState) : ParseState × Option PErr :=
  match st.names, st.expiration with
  | some nm, some ex =>
    ({ st with dNameExpiration := dictInsert st.dNameExpiration nm ex }, none)
  | _, _ => (st, some .nameError)

/-- The post-scan update block (source lines 142-147). -/
def updatePhase (st : ParseState) (fl : Flags) : ParseState × Option PErr :=
  if fl.futures then
    match (if fl.underlying_product then bump462 st else (st, none)) with
    | (st1, some e) => (st1, some e)
    | (st1, none) =>
      if fl.assetGE && !fl.nolegs then updName st1 else (st1, none)
  else (st, none)

/-- Processing of one record: reset the four flags, scan every token, then
run the update block; a fault anywhere stops the record and is reported. -/
def processLine (st : ParseState) (toks : List String) : ParseState × Option PErr :=
  match scanFields st initFlags toks with
  | (st', _, some e) => (st', some e)
  | (st', fl, none) => updatePhase st' fl

/-- The `for line in secdefFile` loop: records in order; the first fault
aborts the remaining records (the exception propagates out of the loop). -/
def processFeed : ParseState → List (List String) → ParseState × Option PErr
  | st, [] => (st, none)
  | st, r :: rs =>
    match processLine st r with
    | (st', some e) => (st', some e)
    | (st', none) => processFeed st' rs

/-- What `parse_secdef_file` reports: `True` on success, `False` when the
`except KeyError` handler fires, or an uncaught exception. -/
inductive ParseResult where
  | success : ParseResult
  | failure : ParseResult
  | uncaught : PErr → ParseResult
deriving DecidableEq, Repr

/-- `parse_secdef_file` on a feed of already-tokenized records: runs the
parse loop from the pre-seeded state; `KeyError` is caught (returns
`False`), `IndexError` and `NameError` escape. -/
def parse_secdef_file (feed : List (List String)) : ParseState × ParseResult :=
  match processFeed initState feed with
  | (st, none) => (st, .success)
  | (st, some .keyError) => (st, .failure)
  | (st, some .indexError) => (st, .uncaught .indexError)
  | (st, some .nameError) => (st, .uncaught .nameError)

/-- `parse_secdef_file` on raw lines: each line is split on SOH first. -/
def parse_secdef_lines (lines : List String) : ParseState × ParseResult :=
  parse_secdef_file (lines.map tokenize)

/-- Lexicographic comparison of character sequences: Python's `<=` on
strings compares code points left to right. -/
def lexLE : List Char → List Char → Bool
  | [], _ => true
  | _ :: _, [] => false
  | c :: cs, d :: ds => if c = d then lexLE cs ds else decide (c < d)

/-- Python's `a <= b` on strings. -/
def strLE (a b : String) : Bool := lexLE a.toList b.toList

/-- The sort key of `print_solution3` (`key=lambda x: x[1]`): compare pairs
by lexical comparison of their expiration string. -/
def expLE (a b : String × String) : Prop := strLE a.2 b.2 = true

instance : DecidableRel expLE := fun a b =>
  inferInstanceAs (Decidable (strLE a.2 b.2 = true))

lemma lexLE_total : ∀ a b : List Char, lexLE a b = true ∨ lexLE b a = true
  | [], _ => Or.inl rfl
  | _ :: _, [] => Or.inr rfl
  | c :: cs, d :: ds => by
    by_cases hcd : c = d
    · subst hcd
      simpa [lexLE] using lexLE_total cs ds
    · rcases lt_or_gt_of_ne hcd with h | h
      · exact Or.inl (by simp [lexLE, hcd, h])
      · exact Or.inr (by simp [lexLE, Ne.symm hcd, h])

lemma lexLE_trans : ∀ a b c : List Char,
    lexLE a b = true → lexLE b c = true → lexLE a c = true
  | [], _, _, _, _ => rfl
  | x :: xs, [], _, hab, _ => by simp [lexLE] at hab
  | x :: xs, y :: ys, [], _, hbc => by simp [lexLE] at hbc
  | x :: xs, y :: ys, z :: zs, hab, hbc => by
    by_cases hxy : x = y <;> by_cases hyz : y = z
    · subst hxy; subst hyz
      simp only [lexLE, if_pos rfl] at hab hbc ⊢
      exact lexLE_trans xs ys zs hab hbc
    · subst hxy
      simpa [lexLE, hyz] using hbc
    · subst hyz
      simpa [lexLE, hxy] using hab
    · simp only [lexLE, if_neg hxy, decide_eq_true_eq] at hab
      simp only [lexLE, if_neg hyz, decide_eq_true_eq] at hbc
      have hxz : x < z := lt_trans hab hbc
      simp [lexLE, ne_of_lt hxz, hxz]

instance : IsTotal (String × String) expLE := ⟨fun a b => lexLE_total a.2.toList b.2.toList⟩

instance : IsTrans (String × String) expLE :=
  ⟨fun _ _ _ h1 h2 => lexLE_trans _ _ _ h1 h2⟩

/-- `print_solution3` (source lines 188-192): sort the name/expiration pairs
by expiration with Python's stable sort and keep the first four.
`List.insertionSort` with a `≤` key is stable, hence extensionally equal to
Python's `sorted` here. -/
def print_solution3 (m : List (String × String)) : List (String × String) :=
  (List.insertionSort expLE m).take 4

/-! ### Pure observation functions over a record's token list -/

/-- The token's tag equals `t`. -/
def isTag (t d : String) : Bool := tagOf d == t

/-- The token is a `167=FUT` field. -/
def isFUTtok (d : String) : Bool := isTag SECURITY_TYPE_TAG d && (valOf d == some FUTURES)

/-- Some field of the record is a security-type field with value `FUT`. -/
def anyFUT (toks : List String) : Bool := toks.any isFUTtok

/-- Some field of the record has the product-complex tag. -/
def any462 (toks : List String) : Bool := toks.any (isTag UNDERLYING_PRODUCT_TAG)

/-- The value carried by the LAST field of the record with tag `t`. -/
def lastTagVal (t : String) (toks : List String) : Option String :=
  toks.foldl (fun a d => if isTag t d then valOf d else a) none

/-- The value carried by the FIRST field of the record with tag `t`. -/
def firstTagVal (t : String) (toks : List String) : Option String :=
  (toks.find? (isTag t)).bind valOf

/-- Overwrite semantics for the per-run locals: a new assignment (if any)
replaces the previous value. -/
def overrideO (a b : Option String) : Option String :=
  match b with
  | some v => some v
  | none => a

/-- How many `d167` increments a record performs at key `k`: one per
security-type field whose value is `k`. -/
def contrib167 (toks : List String) (k : String) : Nat :=
  toks.countP (fun d => isTag SECURITY_TYPE_TAG d && (valOf d == some k))

/-- The `d462` key a record increments, when it increments one: the record
must have a `FUT` security-type field and a product-complex field, and the
key is the last product-complex value. -/
def contrib462 (toks : List String) : Option String :=
  if anyFUT toks && any462 toks then lastTagVal UNDERLYING_PRODUCT_TAG toks else none

/-- Every field of the record with tag `t` carries a value (has an `=`). -/
def okValued (t : String) (toks : List String) : Bool :=
  toks.all (fun d => !(isTag t d) || (valOf d).isSome)

/-! ### The effect of one successful token step -/

lemma tagOf_ASSET_GE : tagOf ASSET_GE = "6937" := by decide

lemma beq_false_of_ne {α : Type} [DecidableEq α] {a b : α} (h : a ≠ b) :
    (a == b) = false := by
  simp [h]

/-- Full characterization of `stepToken` when it does not fault: which state
component and which flag each kind of token touches, and how. -/
lemma stepToken_ok {st : ParseState} {fl : Flags} {data : String}
    {st' : ParseState} {fl' : Flags}
    (h : stepToken st fl data = .ok (st', fl')) :
    (∀ k, st'.d167 k =
      if isTag SECURITY_TYPE_TAG data && (valOf data == some k)
      then Option.map (· + 1) (st.d167 k) else st.d167 k) ∧
    st'.d462 = st.d462 ∧
    st'.dNameExpiration = st.dNameExpiration ∧
    st'.names = (if isTag NAMES_TAG data then valOf data else st.names) ∧
    st'.expiration = (if isTag EXPIRATION_TAG data then valOf data else st.expiration) ∧
    st'.product_complex =
      (if isTag UNDERLYING_PRODUCT_TAG data then valOf data else st.product_complex) ∧
    fl'.futures = (fl.futures || isFUTtok data) ∧
    fl'.assetGE = (fl.assetGE || (data == ASSET_GE)) ∧
    fl'.nolegs = (fl.nolegs || isTag NOLEGS_TAG data) ∧
    fl'.underlying_product = (fl.underlying_product || isTag UNDERLYING_PRODUCT_TAG data) ∧
    (isTag UNDERLYING_PRODUCT_TAG data = true → (valOf data).isSome = true) ∧
    (isTag NAMES_TAG data = true → (valOf data).isSome = true) ∧
    (isTag EXPIRATION_TAG data = true → (valOf data).isSome = true) := by
  unfold stepToken at h
  simp only [SECURITY_TYPE_TAG, UNDERLYING_PRODUCT_TAG, ASSET_GE, NOLEGS_TAG,
    NAMES_TAG, EXPIRATION_TAG, FUTURES] at h ⊢
  have hGE : tagOf "6937=GE" = "6937" := by decide
  split at h
  case isTrue h1 =>
    have n462 : tagOf data ≠ "462" := by rw [h1]; decide
    have n555 : tagOf data ≠ "555" := by rw [h1]; decide
    have n55 : tagOf data ≠ "55" := by rw [h1]; decide
    have n200 : tagOf data ≠ "200" := by rw [h1]; decide
    have nGE : (data == "6937=GE") = false := by
      refine beq_false_of_ne fun hd => ?_
      rw [hd, hGE] at h1
      exact absurd h1 (by decide)
    split at h
    case h_1 => exact Except.noConfusion h
    case h_2 v hv =>
      split at h
      case h_1 => exact Except.noConfusion h
      case h_2 n hd =>
        split at h <;>
        · rename_i hF
          injection h with hp
          injection hp with hst hfl
          subst hst; subst hfl
          refine ⟨fun k => ?_, rfl, rfl, ?_, ?_, ?_, ?_, ?_, ?_, ?_, ?_, ?_, ?_⟩
          · rcases eq_or_ne k v with rfl | hk
            · simp [isTag, h1, hv, hd]
            · simp [isTag, hv, hk, Ne.symm hk]
          all_goals
            simp [isTag, isFUTtok, h1, n462, n555, n55, n200, nGE, hv, hF, SECURITY_TYPE_TAG, FUTURES]
  case isFalse h1 =>
    split at h
    case isTrue h2 =>
      have n555 : tagOf data ≠ "555" := by rw [h2]; decide
      have n55 : tagOf data ≠ "55" := by rw [h2]; decide
      have n200 : tagOf data ≠ "200" := by rw [h2]; decide
      have nGE : (data == "6937=GE") = false := by
        refine beq_false_of_ne fun hd => ?_
        rw [hd, hGE] at h2
        exact absurd h2 (by decide)
      split at h
      case h_1 => exact Except.noConfusion h
      case h_2 v hv =>
        injection h with hp
        injection hp with hst hfl
        subst hst; subst hfl
        refine ⟨fun k => ?_, rfl, rfl, ?_, ?_, ?_, ?_, ?_, ?_, ?_, ?_, ?_, ?_⟩ <;>
          simp [isTag, isFUTtok, h1, h2, n555, n55, n200, nGE, hv, SECURITY_TYPE_TAG, FUTURES]
    case isFalse h2 =>
      split at h
      case isTrue h3 =>
        obtain ⟨hd3, hfl3⟩ := h3
        injection h with hp
        injection hp with hst hfl
        subst hst; subst hfl
        subst hd3
        refine ⟨fun k => ?_, rfl, rfl, ?_, ?_, ?_, ?_, ?_, ?_, ?_, ?_, ?_, ?_⟩ <;>
          simp [isTag, isFUTtok, hGE, hfl3, SECURITY_TYPE_TAG, FUTURES]
      case isFalse h3 =>
        have hA : (fl.assetGE || (data == "6937=GE")) = fl.assetGE := by
          by_cases hd : data = "6937=GE"
          · cases hfb : fl.assetGE with
            | false => exact absurd ⟨hd, hfb⟩ h3
            | true => simp
          · simp [beq_false_of_ne hd]
        split at h
        case isTrue h4 =>
          have n55 : tagOf data ≠ "55" := by rw [h4]; decide
          have n200 : tagOf data ≠ "200" := by rw [h4]; decide
          injection h with hp
          injection hp with hst hfl
          subst hst; subst hfl
          refine ⟨fun k => ?_, rfl, rfl, ?_, ?_, ?_, ?_, ?_, ?_, ?_, ?_, ?_, ?_⟩ <;>
            simp [isTag, isFUTtok, h1, h2, h4, n55, n200, hA, SECURITY_TYPE_TAG, FUTURES]
        case isFalse h4 =>
          split at h
          case isTrue h5 =>
            have n200 : tagOf data ≠ "200" := by rw [h5]; decide
            split at h
            case h_1 => exact Except.noConfusion h
            case h_2 v hv =>
              injection h with hp
              injection hp with hst hfl
              subst hst; subst hfl
              refine ⟨fun k => ?_, rfl, rfl, ?_, ?_, ?_, ?_, ?_, ?_, ?_, ?_, ?_, ?_⟩ <;>
                simp [isTag, isFUTtok, h1, h2, h4, h5, n200, hA, hv, SECURITY_TYPE_TAG, FUTURES]
          case isFalse h5 =>
            split at h
            case isTrue h6 =>
              split at h
              case h_1 => exact Except.noConfusion h
              case h_2 v hv =>
                injection h with hp
                injection hp with hst hfl
                subst hst; subst hfl
                refine ⟨fun k => ?_, rfl, rfl, ?_, ?_, ?_, ?_, ?_, ?_, ?_, ?_, ?_, ?_⟩ <;>
                  simp [isTag, isFUTtok, h1, h2, h4, h5, h6, hA, hv, SECURITY_TYPE_TAG, FUTURES]
            case isFalse h6 =>
              injection h with hp
              injection hp with hst hfl
              subst hst; subst hfl
              refine ⟨fun k => ?_, rfl, rfl, ?_, ?_, ?_, ?_, ?_, ?_, ?_, ?_, ?_, ?_⟩ <;>
                simp [isTag, isFUTtok, h1, h2, h4, h5, h6, hA, SECURITY_TYPE_TAG, FUTURES]

/-! ### Scan-level lemmas -/

/-- The field scan never touches `d462` or `dNameExpiration`, whether it
completes or faults: those two aggregates are only written after the scan. -/
lemma scanFields_inv (toks : List String) : ∀ (st : ParseState) (fl : Flags),
    (scanFields st fl toks).1.d462 = st.d462 ∧
    (scanFields st fl toks).1.dNameExpiration = st.dNameExpiration := by
  induction toks with
  | nil => exact fun st fl => ⟨rfl, rfl⟩
  | cons d ds ih =>
    intro st fl
    cases hstep : stepToken st fl d with
    | error e => simp [scanFields, hstep]
    | ok p =>
      obtain ⟨st1, fl1⟩ := p
      have h462 := (stepToken_ok hstep).2.1
      have hdn := (stepToken_ok hstep).2.2.1
      simp only [scanFields, hstep]
      exact ⟨(ih st1 fl1).1.trans h462, (ih st1 fl1).2.trans hdn⟩

/-- Full characterization of a completed (fault-free) field scan: `d167` has
been bumped once per security-type field, the three locals hold the value of
the last field carrying their tag, and each flag records whether a matching
field occurred anywhere in the record. -/
lemma scanFields_ok (toks : List String) : ∀ (st : ParseState) (fl : Flags),
    (scanFields st fl toks).2.2 = none →
    (∀ k, (scanFields st fl toks).1.d167 k =
      Option.map (· + contrib167 toks k) (st.d167 k)) ∧
    (scanFields st fl toks).1.names =
      toks.foldl (fun a d => if isTag NAMES_TAG d then valOf d else a) st.names ∧
    (scanFields st fl toks).1.expiration =
      toks.foldl (fun a d => if isTag EXPIRATION_TAG d then valOf d else a) st.expiration ∧
    (scanFields st fl toks).1.product_complex =
      toks.foldl (fun a d => if isTag UNDERLYING_PRODUCT_TAG d then valOf d else a)
        st.product_complex ∧
    (scanFields st fl toks).2.1.futures = (fl.futures || anyFUT toks) ∧
    (scanFields st fl toks).2.1.assetGE = (fl.assetGE || toks.any (fun d => d == ASSET_GE)) ∧
    (scanFields st fl toks).2.1.nolegs = (fl.nolegs || toks.any (isTag NOLEGS_TAG)) ∧
    (scanFields st fl toks).2.1.underlying_product =
      (fl.underlying_product || any462 toks) ∧
    okValued UNDERLYING_PRODUCT_TAG toks = true ∧
    okValued NAMES_TAG toks = true ∧
    okValued EXPIRATION_TAG toks = true := by
  induction toks with
  | nil =>
    intro st fl _
    refine ⟨fun k => ?_, rfl, rfl, rfl, ?_, ?_, ?_, ?_, rfl, rfl, rfl⟩
    · cases hk : st.d167 k <;> simp [contrib167, scanFields, hk]
    all_goals simp [anyFUT, any462, scanFields]
  | cons d ds ih =>
    intro st fl h
    cases hstep : stepToken st fl d with
    | error e => rw [scanFields, hstep] at h; exact Option.noConfusion h
    | ok p =>
      obtain ⟨st1, fl1⟩ := p
      rw [scanFields, hstep] at h
      obtain ⟨s1, s2, s3, s4, s5, s6, f1, f2, f3, f4, w1, w2, w3⟩ := stepToken_ok hstep
      obtain ⟨a1, a2, a3, a4, a5, a6, a7, a8, a9, a10, a11⟩ := ih st1 fl1 h
      rw [scanFields, hstep]
      refine ⟨fun k => ?_, ?_, ?_, ?_, ?_, ?_, ?_, ?_, ?_, ?_, ?_⟩
      · rw [a1 k, s1 k]
        by_cases hp : (isTag SECURITY_TYPE_TAG d && (valOf d == some k)) = true
        · rw [if_pos hp]
          simp only [contrib167, List.countP_cons]
          simp only [contrib167] at *
          cases st.d167 k <;> simp [hp] <;> omega
        · rw [if_neg hp]
          simp only [contrib167, List.countP_cons]
          simp only [contrib167] at *
          cases st.d167 k <;> simp [hp]
      · simp only [List.foldl_cons]
        rw [← s4]; exact a2
      · simp only [List.foldl_cons]
        rw [← s5]; exact a3
      · simp only [List.foldl_cons]
        rw [← s6]; exact a4
      · rw [a5, f1]
        simp [anyFUT, Bool.or_assoc]
      · rw [a6, f2]
        simp [Bool.or_assoc]
      · rw [a7, f3]
        simp [Bool.or_assoc]
      · rw [a8, f4]
        simp [any462, Bool.or_assoc]
      · simp only [okValued, List.all_cons, Bool.and_eq_true]
        refine ⟨?_, a9⟩
        cases htag : isTag UNDERLYING_PRODUCT_TAG d
        · simp
        · simp [w1 htag]
      · simp only [okValued, List.all_cons, Bool.and_eq_true]
        refine ⟨?_, a10⟩
        cases htag : isTag NAMES_TAG d
        · simp
        · simp [w2 htag]
      · simp only [okValued, List.all_cons, Bool.and_eq_true]
        refine ⟨?_, a11⟩
        cases htag : isTag EXPIRATION_TAG d
        · simp
        · simp [w3 htag]

/-- Folding the last-value accumulator from a `some` start stays `some`
when every matching field carries a value. -/
lemma foldl_tag_isSome (t : String) (toks : List String) :
    ∀ (a : Option String), a.isSome = true → okValued t toks = true →
    (toks.foldl (fun x d => if isTag t d then valOf d else x) a).isSome = true := by
  induction toks with
  | nil => exact fun a ha _ => ha
  | cons d ds ih =>
    intro a ha hok
    simp only [okValued, List.all_cons, Bool.and_eq_true] at hok
    simp only [List.foldl_cons]
    cases htag : isTag t d
    · rw [if_neg (by simp [htag])]
      exact ih a ha hok.2
    · rw [if_pos rfl]
      refine ih _ ?_ hok.2
      rcases hok with ⟨hd, -⟩
      rw [htag] at hd
      simpa using hd

/-- The last-value fold from an arbitrary start equals last-write-wins over
the start value, provided every matching field carries a value. -/
lemma foldl_tag_override (t : String) (toks : List String) :
    ∀ (a : Option String), okValued t toks = true →
    toks.foldl (fun x d => if isTag t d then valOf d else x) a =
      overrideO a (lastTagVal t toks) := by
  induction toks with
  | nil => exact fun a _ => rfl
  | cons d ds ih =>
    intro a hok
    simp only [okValued, List.all_cons, Bool.and_eq_true] at hok
    obtain ⟨hd, hds⟩ := hok
    simp only [lastTagVal, List.foldl_cons]
    cases htag : isTag t d
    · rw [if_neg (by simp [htag]), if_neg (by simp [htag])]
      exact ih a (by simpa [okValued] using hds)
    · rw [htag] at hd
      obtain ⟨v, hv⟩ := Option.isSome_iff_exists.mp (by simpa using hd)
      rw [if_pos rfl, if_pos rfl, hv]
      obtain ⟨w, hw⟩ := Option.isSome_iff_exists.mp
        (foldl_tag_isSome t ds (some v) rfl (by simpa [okValued] using hds))
      rw [hw]
      rfl

/-- A completed scan with a product-complex field somewhere leaves
`lastTagVal` defined. -/
lemma lastTagVal_isSome (t : String) (toks : List String)
    (hok : okValued t toks = true) (hany : toks.any (isTag t) = true) :
    (lastTagVal t toks).isSome = true := by
  induction toks with
  | nil => simp at hany
  | cons d ds ih =>
    simp only [okValued, List.all_cons, Bool.and_eq_true] at hok
    obtain ⟨hd, hds⟩ := hok
    simp only [lastTagVal, List.foldl_cons]
    cases htag : isTag t d
    · rw [if_neg (by simp [htag])]
      simp only [List.any_cons, htag, Bool.false_or] at hany
      exact ih (by simpa [okValued] using hds) hany
    · rw [htag] at hd
      rw [if_pos rfl]
      obtain ⟨v, hv⟩ := Option.isSome_iff_exists.mp (by simpa using hd)
      rw [hv]
      exact foldl_tag_isSome t ds (some v) rfl (by simpa [okValued] using hds)

/-- Decomposition of the scan over an append: the suffix is scanned from the
state the prefix reached, unless the prefix faulted. -/
lemma scanFields_append (as bs : List String) : ∀ (st : ParseState) (fl : Flags),
    scanFields st fl (as ++ bs) =
      match scanFields st fl as with
      | (st1, fl1, none) => scanFields st1 fl1 bs
      | (st1, fl1, some e) => (st1, fl1, some e) := by
  induction as with
  | nil => exact fun st fl => rfl
  | cons d ds ih =>
    intro st fl
    rw [List.cons_append]
    cases hstep : stepToken st fl d with
    | error e => simp [scanFields, hstep]
    | ok p =>
      obtain ⟨st1, fl1⟩ := p
      simp [scanFields, hstep, ih st1 fl1]

/-- Stepping on the exact asset-filter token `6937=GE` only sets the
`assetGE` flag; when the flag is already set the token falls through every
branch of the `elif` chain and the step is a no-op. -/
lemma stepToken_GE (st : ParseState) (fl : Flags) :
    stepToken st fl ASSET_GE = .ok (st, { fl with assetGE := true }) := by
  have h167 : ¬(tagOf ASSET_GE = SECURITY_TYPE_TAG) := by decide
  have h462 : ¬(tagOf ASSET_GE = UNDERLYING_PRODUCT_TAG) := by decide
  have h555 : ¬(tagOf ASSET_GE = NOLEGS_TAG) := by decide
  have h55 : ¬(tagOf ASSET_GE = NAMES_TAG) := by decide
  have h200 : ¬(tagOf ASSET_GE = EXPIRATION_TAG) := by decide
  cases hfb : fl.assetGE with
  | false =>
    unfold stepToken
    rw [if_neg h167, if_neg h462, if_pos ⟨rfl, hfb⟩]
  | true =>
    unfold stepToken
    rw [if_neg h167, if_neg h462,
      if_neg (fun hc => by rw [hfb] at hc; exact Bool.noConfusion hc.2),
      if_neg h555, if_neg h55, if_neg h200]
    obtain ⟨f1, f2, f3, f4⟩ := fl
    simp only at hfb
    subst hfb
    rfl

/-! ### Update-phase lemmas -/

lemma bump462_err {st st1 : ParseState} {e : PErr} (h : bump462 st = (st1, some e)) :
    st1 = st := by
  unfold bump462 at h
  split at h
  · injection h with h1 h2; exact h1.symm
  · split at h
    · injection h with h1 h2; exact h1.symm
    · injection h with h1 h2; exact Option.noConfusion h2

lemma bump462_ok {st st1 : ParseState} (h : bump462 st = (st1, none)) :
    ∃ pc n, st.product_complex = some pc ∧ st.d462 pc = some n ∧
      st1 = { st with d462 := fun k => if k = pc then some (n + 1) else st.d462 k } := by
  unfold bump462 at h
  split at h
  · injection h with h1 h2; exact Option.noConfusion h2
  · rename_i pc hpc
    split at h
    · injection h with h1 h2; exact Option.noConfusion h2
    · rename_i n hn
      injection h with h1 h2
      exact ⟨pc, n, hpc, hn, h1.symm⟩

lemma updName_err {st st1 : ParseState} {e : PErr} (h : updName st = (st1, some e)) :
    st1 = st := by
  unfold updName at h
  split at h
  · injection h with h1 h2; exact Option.noConfusion h2
  · injection h with h1 h2; exact h1.symm

lemma updName_ok {st st1 : ParseState} (h : updName st = (st1, none)) :
    ∃ nm ex, st.names = some nm ∧ st.expiration = some ex ∧
      st1 = { st with dNameExpiration := dictInsert st.dNameExpiration nm ex } := by
  unfold updName at h
  split at h
  · rename_i nm ex hnm hex
    injection h with h1 h2
    exact ⟨nm, ex, hnm, hex, h1.symm⟩
  · injection h with h1 h2; exact Option.noConfusion h2

lemma updName_comp (st : ParseState) :
    (updName st).1.d167 = st.d167 ∧ (updName st).1.d462 = st.d462 := by
  unfold updName
  split
  · exact ⟨rfl, rfl⟩
  · exact ⟨rfl, rfl⟩

/-- The update phase never writes `d167` (that dictionary is only written
inside the field scan). -/
lemma updatePhase_d167 (st : ParseState) (fl : Flags) :
    (updatePhase st fl).1.d167 = st.d167 := by
  unfold updatePhase
  split
  case isFalse => rfl
  case isTrue hf =>
    split
    case h_1 st1 e heq =>
      cases hu : fl.underlying_product
      · rw [hu, if_neg (by simp)] at heq
        injection heq with h1 h2
        exact Option.noConfusion h2
      · rw [hu, if_pos rfl] at heq
        rw [show st1 = st from bump462_err heq]
    case h_2 st1 heq =>
      have hst1 : st1.d167 = st.d167 := by
        cases hu : fl.underlying_product
        · rw [hu, if_neg (by simp)] at heq
          injection heq with h1 h2
          rw [← h1]
        · rw [hu, if_pos rfl] at heq
          obtain ⟨pc, n, hpc, hn, hb⟩ := bump462_ok heq
          rw [hb]
      split
      · exact ((updName_comp st1).1).trans hst1
      · exact hst1

/-- Dichotomy for `d462` across one update phase, whatever the outcome:
either untouched, or exactly one existing key bumped by exactly one. -/
lemma updatePhase_d462_cases (st : ParseState) (fl : Flags) :
    (updatePhase st fl).1.d462 = st.d462 ∨
    ∃ pc n, st.d462 pc = some n ∧
      (updatePhase st fl).1.d462 = fun k => if k = pc then some (n + 1) else st.d462 k := by
  unfold updatePhase
  split
  case isFalse => exact Or.inl rfl
  case isTrue hf =>
    split
    case h_1 st1 e heq =>
      cases hu : fl.underlying_product
      · rw [hu, if_neg (by simp)] at heq
        injection heq with h1 h2
        exact Or.inl (by rw [← h1])
      · rw [hu, if_pos rfl] at heq
        exact Or.inl (by rw [bump462_err heq])
    case h_2 st1 heq =>
      have hst1 : st1.d462 = st.d462 ∨
          ∃ pc n, st.d462 pc = some n ∧
            st1.d462 = fun k => if k = pc then some (n + 1) else st.d462 k := by
        cases hu : fl.underlying_product
        · rw [hu, if_neg (by simp)] at heq
          injection heq with h1 h2
          exact Or.inl (by rw [← h1])
        · rw [hu, if_pos rfl] at heq
          obtain ⟨pc, n, hpc, hn, hb⟩ := bump462_ok heq
          exact Or.inr ⟨pc, n, hn, by rw [hb]⟩
      have hfinal : ∀ st2 : ParseState,
          (if fl.assetGE && !fl.nolegs then updName st2 else (st2, none)).1.d462 =
            st2.d462 := by
        intro st2
        split
        · exact (updName_comp st2).2
        · rfl
      rcases hst1 with h1 | ⟨pc, n, hn, h1⟩
      · exact Or.inl ((hfinal st1).trans h1)
      · exact Or.inr ⟨pc, n, hn, (hfinal st1).trans h1⟩

/-- `d462` across a successful update phase: bumped at the recorded
product-complex key exactly when the record was flagged futures with a
product-complex field; untouched otherwise. -/
lemma updatePhase_d462_ok (st : ParseState) (fl : Flags)
    (h : (updatePhase st fl).2 = none) :
    (fl.futures = true ∧ fl.underlying_product = true ∧ ∃ pc n,
      st.product_complex = some pc ∧ st.d462 pc = some n ∧
      (updatePhase st fl).1.d462 = fun k => if k = pc then some (n + 1) else st.d462 k) ∨
    ((fl.futures = false ∨ fl.underlying_product = false) ∧
      (updatePhase st fl).1.d462 = st.d462) := by
  unfold updatePhase at h ⊢
  split at h
  case isFalse hf =>
    rw [if_neg hf]
    exact Or.inr ⟨Or.inl (by simpa using hf), rfl⟩
  case isTrue hf =>
    rw [if_pos hf]
    have hfinal : ∀ st2 : ParseState,
        (if fl.assetGE && !fl.nolegs then updName st2 else (st2, none)).1.d462 =
          st2.d462 := by
      intro st2
      split
      · exact (updName_comp st2).2
      · rfl
    split at h
    case h_1 st1 e heq =>
      exact Option.noConfusion h
    case h_2 st1 heq =>
      cases hu : fl.underlying_product
      · rw [hu, if_neg (by simp)] at heq
        injection heq with h1 h2
        exact Or.inr ⟨Or.inr rfl, (hfinal st1).trans (by rw [← h1])⟩
      · rw [hu, if_pos rfl] at heq
        obtain ⟨pc, n, hpc, hn, hb⟩ := bump462_ok heq
        exact Or.inl ⟨hf, rfl, pc, n, hpc, hn, (hfinal st1).trans (by rw [hb])⟩

/-! ### Record-level and feed-level composition -/

/-- Across one record, whatever the outcome, `d462` is either untouched or
exactly one pre-existing key is bumped by exactly one. -/
lemma processLine_d462_cases (st : ParseState) (toks : List String) :
    (processLine st toks).1.d462 = st.d462 ∨
    ∃ pc n, st.d462 pc = some n ∧
      (processLine st toks).1.d462 = fun k => if k = pc then some (n + 1) else st.d462 k := by
  rcases hscan : scanFields st initFlags toks with ⟨st1, fl1, err⟩
  have hinv : st1.d462 = st.d462 := by
    have h := (scanFields_inv toks st initFlags).1
    rw [hscan] at h
    exact h
  cases err with
  | some e =>
    rw [processLine, hscan]
    exact Or.inl hinv
  | none =>
    rw [processLine, hscan]
    rcases updatePhase_d462_cases st1 fl1 with h | ⟨pc, n, hn, h⟩
    · exact Or.inl (h.trans hinv)
    · refine Or.inr ⟨pc, n, by rw [← hinv]; exact hn, ?_⟩
      rw [h, hinv]

/-- A successful record: `d167` gained one count per security-type field of
the record, and `d462` gained exactly the record's product-complex
contribution. -/
lemma processLine_ok (st : ParseState) (toks : List String)
    (h : (processLine st toks).2 = none) :
    (∀ k, (processLine st toks).1.d167 k =
      Option.map (· + contrib167 toks k) (st.d167 k)) ∧
    (∀ k, (processLine st toks).1.d462 k =
      Option.map (· + (if contrib462 toks = some k then 1 else 0)) (st.d462 k)) := by
  rcases hscan : scanFields st initFlags toks with ⟨st1, fl1, err⟩
  cases err with
  | some e =>
    rw [processLine, hscan] at h
    exact Option.noConfusion h
  | none =>
    rw [processLine, hscan] at h ⊢
    have SC := scanFields_ok toks st initFlags (by rw [hscan])
    rw [hscan] at SC
    obtain ⟨a1, a2, a3, a4, a5, a6, a7, a8, a9, a10, a11⟩ := SC
    have hinv : st1.d462 = st.d462 := by
      have h462 := (scanFields_inv toks st initFlags).1
      rw [hscan] at h462
      exact h462
    have hfut : fl1.futures = anyFUT toks := by simpa [initFlags] using a5
    have hund : fl1.underlying_product = any462 toks := by simpa [initFlags] using a8
    constructor
    · intro k
      rw [updatePhase_d167 st1 fl1, a1 k]
    · intro k
      rcases updatePhase_d462_ok st1 fl1 h with
        ⟨hf, hu, pc, n, hpc, hn, heq⟩ | ⟨hor, heq⟩
      · -- futures record with a product-complex field: one bump at `pc`
        have hanyF : anyFUT toks = true := by rw [← hfut]; exact hf
        have hany4 : any462 toks = true := by rw [← hund]; exact hu
        have hlast : lastTagVal UNDERLYING_PRODUCT_TAG toks = some pc := by
          have hov := foldl_tag_override UNDERLYING_PRODUCT_TAG toks st.product_complex a9
          rw [← a4] at hov
          obtain ⟨v, hv⟩ := Option.isSome_iff_exists.mp
            (lastTagVal_isSome UNDERLYING_PRODUCT_TAG toks a9 (by simpa [any462] using hany4))
          rw [hv] at hov
          rw [hv]
          rw [hov] at hpc
          simpa [overrideO] using hpc
        have hc : contrib462 toks = some pc := by
          rw [contrib462, if_pos (by rw [hanyF, hany4]; rfl), hlast]
        rw [heq, hc]
        rcases eq_or_ne k pc with rfl | hk
        · have hn' : st.d462 k = some n := by rw [← hinv]; exact hn
          simp [hn']
        · simp [hk, Ne.symm hk, hinv]
      · -- no bump: the record is not a futures-with-product-complex record
        have hc : contrib462 toks = none := by
          rcases hor with hf | hu
          · rw [contrib462, if_neg]
            rw [← hfut, hf]
            simp
          · rw [contrib462, if_neg]
            rw [← hund, hu]
            simp
        rw [heq, hinv, hc]
        cases st.d462 k <;> simp

/-- A fault-free feed run: `d167` at each key gained the total count of
matching security-type fields over all records; `d462` at each key gained
the number of records contributing that key. -/
lemma processFeed_ok (feed : List (List String)) : ∀ (st : ParseState),
    (processFeed st feed).2 = none →
    (∀ k, (processFeed st feed).1.d167 k =
      Option.map (· + (feed.map (fun r => contrib167 r k)).sum) (st.d167 k)) ∧
    (∀ k, (processFeed st feed).1.d462 k =
      Option.map (· + feed.countP (fun r => contrib462 r == some k)) (st.d462 k)) := by
  induction feed with
  | nil =>
    intro st _
    constructor <;> intro k <;> cases hk : st.d167 k <;> cases hk2 : st.d462 k <;>
      simp [processFeed, hk, hk2]
  | cons r rs ih =>
    intro st h
    rcases hline : processLine st r with ⟨st1, err⟩
    cases err with
    | some e =>
      rw [processFeed, hline] at h
      exact Option.noConfusion h
    | none =>
      rw [processFeed, hline] at h ⊢
      have LO := processLine_ok st r (by rw [hline])
      rw [hline] at LO
      obtain ⟨l1, l2⟩ := LO
      obtain ⟨f1, f2⟩ := ih st1 h
      constructor
      · intro k
        rw [f1 k, l1 k]
        cases st.d167 k <;> simp [List.map_cons, List.sum_cons] <;> omega
      · intro k
        rw [f2 k, l2 k]
        rw [List.countP_cons]
        by_cases hp : (contrib462 r == some k) = true
        · rw [if_pos hp, if_pos (by simpa using hp)]
          cases st.d462 k <;> simp <;> omega
        · rw [if_neg hp, if_neg (by simpa using hp)]
          cases st.d462 k <;> simp

/-! ### The claims -/

/-- Claim C1 (code bug): the claim says an unrecognized security-type value
(outside the pre-seeded set) does not abort processing of subsequent
records.  The code disagrees: the `KeyError` raised by `d167[...] += 1` is
caught only outside the whole file loop, so `parse_secdef_file` returns
`False`, and a later well-formed record (`167=FUT`, which alone would count)
is never counted. -/
theorem C1_unrecognized_key_aborts :
    d167_init "XYZ" = none ∧
    (parse_secdef_file [["167=XYZ"], ["167=FUT"]]).2 = .failure ∧
    (parse_secdef_file [["167=XYZ"], ["167=FUT"]]).1.d167 "FUT" = some 0 ∧
    (parse_secdef_file [["167=FUT"]]).2 = .success ∧
    (parse_secdef_file [["167=FUT"]]).1.d167 "FUT" = some 1 := by
  decide

/-- Claim C2 (counterexample): a single record with the security-type field
repeated (`167=FUT` twice) increments `SecurityTypeCounts` twice — the
increment happens inside the field scan, once per matching field, not once
per record. -/
theorem C2_counterexample :
    initState.d167 "FUT" = some 0 ∧
    (processLine initState ["167=FUT", "167=FUT"]).2 = none ∧
    (processLine initState ["167=FUT", "167=FUT"]).1.d167 "FUT" = some 2 := by
  decide

/-- Claim C2 (amended): a record contributes at most one increment to
`ProductComplexCounts` (`d462`), whatever the outcome; but it contributes to
`SecurityTypeCounts` (`d167`) one increment per security-type field of the
record, which can exceed one. -/
theorem C2_amended (st : ParseState) (toks : List String) :
    ((processLine st toks).1.d462 = st.d462 ∨
      ∃ pc n, st.d462 pc = some n ∧
        (processLine st toks).1.d462 = fun k => if k = pc then some (n + 1) else st.d462 k) ∧
    ((processLine st toks).2 = none →
      ∀ k, (processLine st toks).1.d167 k =
        Option.map (· + contrib167 toks k) (st.d167 k)) :=
  ⟨processLine_d462_cases st toks, fun h => (processLine_ok st toks h).1⟩

/-- Witness for C2 (amended) at a concrete record with a repeated
security-type field. -/
theorem C2_amended_witness :
    (processLine initState ["167=FUT", "167=FUT", "462=2"]).1.d167 "FUT" =
      Option.map (· + contrib167 ["167=FUT", "167=FUT", "462=2"] "FUT")
        (initState.d167 "FUT") :=
  (C2_amended initState ["167=FUT", "167=FUT", "462=2"]).2 (by decide) "FUT"

/-- Claim C3 (counterexample): the aggregator uses the LAST occurrence of a
repeated watched tag, not the first, and flags futures on ANY tag-167 field
with value `FUT`, not the first: with first tag-55 value `A` the stored name
is `B`, and with first tag-167 value `OOF` (second `FUT`) the record is
still counted as futures into `d462`. -/
theorem C3_counterexample :
    firstTagVal NAMES_TAG ["167=FUT", "6937=GE", "55=A", "55=B", "200=201012"] = some "A" ∧
    (parse_secdef_file
      [["167=FUT", "6937=GE", "55=A", "55=B", "200=201012"]]).1.dNameExpiration
      = [("B", "201012")] ∧
    firstTagVal SECURITY_TYPE_TAG ["167=OOF", "167=FUT", "462=2"] = some "OOF" ∧
    (parse_secdef_file [["167=OOF", "167=FUT", "462=2"]]).1.d462 "2" = some 1 := by
  decide

/-- Claim C3 (amended): on a fault-free scan the name, expiration and
product-complex observations hold the value of the LAST field carrying the
tag (overwrite semantics over any previous value), and the record is flagged
futures iff SOME tag-167 field has value `FUT`. -/
theorem C3_amended (st : ParseState) (fl : Flags) (toks : List String)
    (h : (scanFields st fl toks).2.2 = none) :
    (scanFields st fl toks).1.names =
      overrideO st.names (lastTagVal NAMES_TAG toks) ∧
    (scanFields st fl toks).1.expiration =
      overrideO st.expiration (lastTagVal EXPIRATION_TAG toks) ∧
    (scanFields st fl toks).1.product_complex =
      overrideO st.product_complex (lastTagVal UNDERLYING_PRODUCT_TAG toks) ∧
    (scanFields st fl toks).2.1.futures = (fl.futures || anyFUT toks) := by
  obtain ⟨a1, a2, a3, a4, a5, a6, a7, a8, a9, a10, a11⟩ := scanFields_ok toks st fl h
  exact ⟨a2.trans (foldl_tag_override NAMES_TAG toks st.names a10),
    a3.trans (foldl_tag_override EXPIRATION_TAG toks st.expiration a11),
    a4.trans (foldl_tag_override UNDERLYING_PRODUCT_TAG toks st.product_complex a9),
    a5⟩

/-- Witness for C3 (amended) at a record with a repeated tag-55 field. -/
theorem C3_amended_witness :
    (scanFields initState initFlags ["55=A", "55=B"]).1.names =
      overrideO initState.names (lastTagVal NAMES_TAG ["55=A", "55=B"]) :=
  (C3_amended initState initFlags ["55=A", "55=B"] (by decide)).1

/-- Claim C4 (counterexample): a record whose scan faults partway
(`167=FUT` then the unseeded `167=XYZ`) leaves `d167` already mutated — the
security-type aggregate is written during the scan, not after it. -/
theorem C4_counterexample :
    (processLine initState ["167=FUT", "167=XYZ"]).2 = some .keyError ∧
    initState.d167 "FUT" = some 0 ∧
    (processLine initState ["167=FUT", "167=XYZ"]).1.d167 "FUT" = some 1 := by
  decide

/-- Claim C4 (amended): only `d462` and `NameToExpiration` follow
observe-then-update — the field scan never mutates them, whether it
completes or stops partway; `d167` is instead mutated during the scan. -/
theorem C4_amended (st : ParseState) (fl : Flags) (toks : List String) :
    (scanFields st fl toks).1.d462 = st.d462 ∧
    (scanFields st fl toks).1.dNameExpiration = st.dNameExpiration :=
  scanFields_inv toks st fl

/-- Claim C5 (code bug): the claim says a token without `=` in a
value-extracting position is skipped and scanning continues.  The code
instead raises an uncaught `IndexError` (`data.split('=')[1]` on a bare
token), aborting the record, the feed and the whole call: the later
well-formed `167=FUT` field of the same record is never counted. -/
theorem C5_malformed_field_aborts :
    (parse_secdef_file [["167", "167=FUT"]]).2 = .uncaught .indexError ∧
    (parse_secdef_file [["167", "167=FUT"]]).1.d167 "FUT" = some 0 ∧
    (parse_secdef_file [["55", "167=FUT"]]).2 = .uncaught .indexError ∧
    (parse_secdef_file [["200", "167=FUT"]]).2 = .uncaught .indexError := by
  decide

/-- Claim C6: the Q3 result is the name/expiration pairs sorted
non-decreasing by lexical comparison of the expiration string, truncated to
the first four; its length is `min 4 |NameToExpiration|`, and when at most
four pairs exist the result is all of them. -/
theorem C6_q3_sorted (m : List (String × String)) :
    List.Sorted expLE (print_solution3 m) ∧
    (print_solution3 m).length = min 4 m.length ∧
    (m.length ≤ 4 → (print_solution3 m).Perm m) := by
  refine ⟨?_, ?_, ?_⟩
  · exact List.Pairwise.sublist (List.take_sublist 4 _)
      (List.sorted_insertionSort expLE m)
  · rw [print_solution3, List.length_take, List.length_insertionSort]
  · intro hlen
    rw [print_solution3,
      List.take_of_length_le (by rw [List.length_insertionSort]; exact hlen)]
    exact List.perm_insertionSort expLE m

/-- Witness for C6 at the four-entry mapping of the spec scenario. -/
theorem C6_q3_sorted_witness :
    (print_solution3 [("GEH9", "201903"), ("GEM9", "201906"), ("GEU8", "201812"),
      ("GEZ8", "201812")]).Perm
      [("GEH9", "201903"), ("GEM9", "201906"), ("GEU8", "201812"), ("GEZ8", "201812")] :=
  (C6_q3_sorted [("GEH9", "201903"), ("GEM9", "201906"), ("GEU8", "201812"),
    ("GEZ8", "201812")]).2.2 (by decide)

/-- Claim C7: `hasLegs` (`nolegs`) is set iff some field's tag equals `555`,
regardless of that field's value; in particular the spec's scenario record —
futures, asset `6937=GE`, with `555=0` appended — is counted into `d462` but
produces NO entry in `NameToExpiration`. -/
theorem C7_nolegs_presence (st : ParseState) (fl : Flags) (toks : List String)
    (h : (scanFields st fl toks).2.2 = none) :
    (scanFields st fl toks).2.1.nolegs = (fl.nolegs || toks.any (isTag NOLEGS_TAG)) ∧
    (parse_secdef_file
      [["167=FUT", "462=14", "6937=GE", "55=GEH9", "200=201903", "555=0"]]).1.dNameExpiration
      = [] ∧
    (parse_secdef_file
      [["167=FUT", "462=14", "6937=GE", "55=GEH9", "200=201903", "555=0"]]).1.d462 "14"
      = some 1 := by
  obtain ⟨-, -, -, -, -, -, a7, -, -, -, -⟩ := scanFields_ok toks st fl h
  exact ⟨a7, by decide, by decide⟩

/-- Witness for C7 at a one-token record `555=0`. -/
theorem C7_nolegs_presence_witness :
    (scanFields initState initFlags ["555=0"]).2.1.nolegs =
      (initFlags.nolegs || ["555=0"].any (isTag NOLEGS_TAG)) :=
  (C7_nolegs_presence initState initFlags ["555=0"] (by decide)).1

/-- Claim C8: the asset-filter flag is idempotent — a record containing the
exact token `6937=GE` twice, at ANY two positions (`xs`, `ys`, `zs` are the
arbitrary runs of other fields before, between and after the two
occurrences; the adjacent case is `ys = []`), is processed identically to
the record with the second occurrence removed.  Once set by the first
occurrence the flag stays set across the intervening fields, so the
`and not assetGE` guard makes the second token fall through every branch. -/
theorem C8_assetGE_idempotent (st : ParseState) (xs ys zs : List String) :
    processLine st (xs ++ ASSET_GE :: (ys ++ ASSET_GE :: zs)) =
      processLine st (xs ++ ASSET_GE :: (ys ++ zs)) := by
  have hGEstep : ∀ (st2 : ParseState) (flx : Flags) (ws : List String),
      scanFields st2 flx (ASSET_GE :: ws) =
        scanFields st2 { flx with assetGE := true } ws := by
    intro st2 flx ws
    rw [scanFields, stepToken_GE]
  simp only [processLine, scanFields_append]
  rcases hscan : scanFields st initFlags xs with ⟨st1, fl1, err⟩
  cases err with
  | some e => rfl
  | none =>
    dsimp only
    rw [hGEstep, hGEstep, scanFields_append, scanFields_append]
    rcases hscan2 : scanFields st1 { fl1 with assetGE := true } ys with ⟨st2, fl2, err2⟩
    cases err2 with
    | some e => rfl
    | none =>
      dsimp only
      have hfl2 : fl2.assetGE = true := by
        have h6 := (scanFields_ok ys st1 { fl1 with assetGE := true }
          (by rw [hscan2])).2.2.2.2.2.1
        rw [hscan2] at h6
        simpa using h6
      have hcollapse : ({ fl2 with assetGE := true } : Flags) = fl2 := by
        obtain ⟨a, b, c, d⟩ := fl2
        have hb : b = true := hfl2
        subst hb
        rfl
      rw [hGEstep, hcollapse]

/-- Claim C9 (counterexample): permuting a feed can change the final counts
when a record faults — with `167=XYZ` first nothing is counted, with it
last the `167=FUT` record has already been counted. -/
theorem C9_counterexample :
    ([["167=XYZ"], ["167=FUT"]] : List (List String)).Perm
      [["167=FUT"], ["167=XYZ"]] ∧
    (parse_secdef_file [["167=XYZ"], ["167=FUT"]]).1.d167 "FUT" = some 0 ∧
    (parse_secdef_file [["167=FUT"], ["167=XYZ"]]).1.d167 "FUT" = some 1 := by
  decide

/-- Claim C9 (amended): for feeds that are permutations of each other and
both run fault-free, `parse_secdef_file` produces identical
`SecurityTypeCounts` and identical `ProductComplexCounts`. -/
theorem C9_amended (feed1 feed2 : List (List String)) (hp : feed1.Perm feed2)
    (h1 : (processFeed initState feed1).2 = none)
    (h2 : (processFeed initState feed2).2 = none) :
    (processFeed initState feed1).1.d167 = (processFeed initState feed2).1.d167 ∧
    (processFeed initState feed1).1.d462 = (processFeed initState feed2).1.d462 := by
  obtain ⟨p1, p2⟩ := processFeed_ok feed1 initState h1
  obtain ⟨q1, q2⟩ := processFeed_ok feed2 initState h2
  constructor
  · funext k
    rw [p1 k, q1 k, List.Perm.sum_eq (hp.map (fun r => contrib167 r k))]
  · funext k
    rw [p2 k, q2 k, hp.countP_eq (fun r => contrib462 r == some k)]

/-- Witness for C9 (amended) at a two-record feed and its swap. -/
theorem C9_amended_witness :
    (processFeed initState [["167=FUT", "462=2"], ["167=IRS"]]).1.d167 =
      (processFeed initState [["167=IRS"], ["167=FUT", "462=2"]]).1.d167 ∧
    (processFeed initState [["167=FUT", "462=2"], ["167=IRS"]]).1.d462 =
      (processFeed initState [["167=IRS"], ["167=FUT", "462=2"]]).1.d462 :=
  C9_amended [["167=FUT", "462=2"], ["167=IRS"]]
    [["167=IRS"], ["167=FUT", "462=2"]] (by decide) (by decide) (by decide)

/-- Claim C10: the `names`/`expiration` locals are not reset between
records, so a futures/asset-GE/legless record with no tag-55 and tag-200
fields commits the name and expiration of an EARLIER record into
`NameToExpiration`; with no earlier assignment the same record raises an
uncaught `NameError`. -/
theorem C10_stale_locals :
    (parse_secdef_file
      [["55=OLD", "200=201001", "167=IRS"], ["167=FUT", "6937=GE"]]).2 = .success ∧
    (parse_secdef_file
      [["55=OLD", "200=201001", "167=IRS"],
        ["167=FUT", "6937=GE"]]).1.dNameExpiration = [("OLD", "201001")] ∧
    (parse_secdef_file [["167=FUT", "6937=GE"]]).2 = .uncaught .nameError ∧
    (parse_secdef_file [["167=FUT", "6937=GE"]]).1.dNameExpiration = [] := by
  decide

end ParserFIX
